import Mathlib

/-!
Verification of the real-time interview session orchestrator of the
AI-mock-interview frontend.  Each component of the client is shallowly
embedded as pure Lean definitions mirroring the TypeScript source:

* `AudioUtils`      — `AudioPlayer` from `src/utils/audioUtils.ts`
  (`playChunk`, `playNext`, `pcm16ToAudioBuffer`, `stopAll`, `close`).
* `InterviewPage`   — the silence-timer turn detector and
  `detectFillerWords` from `src/app/interview/[sessionId]/page.tsx`.
* `VoiceInterview`  — `handleMessage` and `sendTranscript` from
  `src/hooks/useVoiceInterview.ts`.
* `WebkitSpeech`    — the webkit `useSpeechRecognition` hook
  (fixed-delay restarts with a cap of 3 attempts).
* `AzureSpeech`     — the Azure-SDK `useSpeechRecognition` hook
  (`scheduleRestart` with bounded exponential backoff, no attempt cap).

Browser built-ins are modelled by their observable contract: `atob`
either yields a byte sequence or throws (`Chunk`), timers are explicit
deadlines fired by trace events, and the audio context tracks the set of
`AudioBufferSourceNode`s currently rendering.
-/

namespace AudioUtils

/-- A decoded audio buffer, as produced by
`AudioPlayer.pcm16ToAudioBuffer`: `createBuffer(numberOfChannels,
floatData.length, sampleRate)` with channel 0 set to `floatData`.
Float samples are represented exactly as rationals (division of an
int16 by `32768.0` is exact in IEEE single precision). -/
structure AudioBuffer where
  numberOfChannels : Nat
  sampleRate : Nat
  samples : List ℚ
deriving DecidableEq

/-- The argument of `playChunk` after the browser's `atob` has run on
the base64 text: either the decoded byte values or an
`InvalidCharacterError` throw.  (`atob` itself is a platform built-in;
it is modelled by its outcome.) -/
inductive Chunk where
  | valid (bytes : List Nat)
  | invalid
deriving DecidableEq

/-- Reinterpretation of two little-endian bytes as one signed 16-bit
sample, as the `Int16Array` view in `pcm16ToAudioBuffer` does.  The
`% 256` mirrors the `Uint8Array` byte stores of `base64ToArrayBuffer`. -/
def toInt16 (lo hi : Nat) : Int :=
  let v : Nat := lo % 256 + 256 * (hi % 256)
  if v < 32768 then (v : Int) else (v : Int) - 65536

/-- The `Int16Array` view over the decoded bytes (little-endian pairs). -/
def int16OfBytes : List Nat → List Int
  | lo :: hi :: rest => toInt16 lo hi :: int16OfBytes rest
  | _ => []

/-- Model of `AudioPlayer.pcm16ToAudioBuffer`: builds the `Int16Array` view
(`new Int16Array(arrayBuffer)` throws a `RangeError` when the byte
length is odd), converts every sample by `pcm16Data[i] / 32768.0`, and
returns a buffer with the requested channel count and sample rate. -/
def pcm16ToAudioBuffer (bytes : List Nat) (sampleRate numberOfChannels : Nat) :
    Except (List Char) AudioBuffer :=
  if bytes.length % 2 ≠ 0 then Except.error "RangeError".toList
  else Except.ok
    { numberOfChannels := numberOfChannels
      sampleRate := sampleRate
      samples := (int16OfBytes bytes).map (fun v => (v : ℚ) / 32768) }

/-- The decode pipeline of `playChunk`: `base64ToArrayBuffer` (`atob`)
followed by `pcm16ToAudioBuffer(audioData, 24000, 1)`. -/
def decodeChunk : Chunk → Except (List Char) AudioBuffer
  | Chunk.invalid => Except.error "InvalidCharacterError".toList
  | Chunk.valid bytes => pcm16ToAudioBuffer bytes 24000 1

/-- State of one `AudioPlayer` instance.  `audioQueue` and `isPlaying`
are the class fields; `active` is the list of `AudioBufferSourceNode`s
currently rendering on the audio context (a node keeps rendering until
its `onended` fires or the context is closed — nothing in the source
calls `source.stop()`); `started` and `enqueued` record, in order, the
buffers handed to `source.start(0)` and the buffers pushed onto the
queue, so that ordering claims can be stated. -/
structure AudioPlayerState where
  hasContext : Bool
  audioQueue : List AudioBuffer
  isPlaying : Bool
  active : List AudioBuffer
  started : List AudioBuffer
  enqueued : List AudioBuffer
deriving DecidableEq

/-- A freshly constructed `AudioPlayer` in a browser (`window`
defined, context created). -/
def initPlayer : AudioPlayerState :=
  { hasContext := true, audioQueue := [], isPlaying := false
    active := [], started := [], enqueued := [] }

/-- Model of `AudioPlayer.playNext`: if the queue is empty, go idle; otherwise
shift the head buffer, mark `isPlaying`, and start a source node on it. -/
def playNext (s : AudioPlayerState) : AudioPlayerState :=
  match s.audioQueue with
  | [] => { s with isPlaying := false }
  | buffer :: rest =>
    { s with isPlaying := true, audioQueue := rest
             active := s.active ++ [buffer]
             started := s.started ++ [buffer] }

/-- Model of `AudioPlayer.playChunk`: bail out when the context is gone,
otherwise decode and queue the chunk and kick off `playNext` when not
already playing.  Any decode failure is caught (`console.error`) and
leaves the player untouched. -/
def playChunk (s : AudioPlayerState) (c : Chunk) : AudioPlayerState :=
  if s.hasContext then
    match decodeChunk c with
    | Except.error _ => s
    | Except.ok audioBuffer =>
      let s1 := { s with audioQueue := s.audioQueue ++ [audioBuffer]
                         enqueued := s.enqueued ++ [audioBuffer] }
      if s1.isPlaying then s1 else playNext s1
  else s

/-- The `source.onended` callback: the oldest rendering node finishes
and `playNext` runs. -/
def onEnded (s : AudioPlayerState) : AudioPlayerState :=
  match s.active with
  | [] => s
  | _ :: rest => playNext { s with active := rest }

/-- Model of `AudioPlayer.stopAll`: clears the queue and the `isPlaying` flag.
Nothing stops the node that is already rendering. -/
def stopAll (s : AudioPlayerState) : AudioPlayerState :=
  { s with audioQueue := [], isPlaying := false }

/-- Model of `AudioPlayer.close`: `stopAll`, then close and drop the audio
context when it is still present (closing the context halts every
rendering node). -/
def close (s : AudioPlayerState) : AudioPlayerState :=
  let s1 := stopAll s
  if s1.hasContext then { s1 with hasContext := false, active := [] } else s1

/-- Events driving one player instance: a `playChunk` call, or the
completion (`onended`) of the node currently rendering. -/
inductive PlayerEvent where
  | play (c : Chunk)
  | ended

/-- One event step of the player. -/
def stepPlayer (s : AudioPlayerState) : PlayerEvent → AudioPlayerState
  | PlayerEvent.play c => playChunk s c
  | PlayerEvent.ended => onEnded s

/-- A whole sequence of `playChunk` calls and node completions. -/
def runPlayer (s : AudioPlayerState) (evts : List PlayerEvent) : AudioPlayerState :=
  evts.foldl stepPlayer s

/-- Invariant of the player: started buffers followed by the pending
queue are exactly the enqueued buffers in arrival order, at most one
source node renders at any moment, and `isPlaying` tracks whether a
node is rendering. -/
def PlayerInv (s : AudioPlayerState) : Prop :=
  s.started ++ s.audioQueue = s.enqueued ∧
    s.active.length ≤ 1 ∧ (s.isPlaying = true ↔ s.active ≠ [])

end AudioUtils

namespace InterviewPage

/-- JS whitespace test used to model `String.prototype.trim`. -/
def isWs (c : Char) : Bool := c.isWhitespace

/-- Model of `text.trim()` on a character list: drop leading and trailing
whitespace. -/
def trimChars (s : List Char) : List Char :=
  ((s.dropWhile isWs).reverse.dropWhile isWs).reverse

/-- Session status of the interview page. -/
inductive Status where
  | connecting
  | ready
  | active
  | ended
deriving DecidableEq

/-- State of `VoiceInterviewPage` relevant to the turn-completion
detector: `finalTranscript` is the closure variable accumulating final
fragments, `silenceDeadline` the pending `setTimeout` stored in
`silenceTimerRef` (as its absolute fire time), `sentTranscripts` the
`response_complete` messages written to the socket (with their send
times), and `recognitionActive` whether speech recognition runs. -/
structure PageState where
  status : Status
  finalTranscript : List Char
  silenceDeadline : Option Nat
  sentTranscripts : List (Nat × List Char)
  recognitionActive : Bool
  interviewId : Option Int
deriving DecidableEq

/-- The 2500 ms silence threshold hard-coded in the page (and in
`config.interview.silenceThreshold`). -/
def silenceThresholdMs : Nat := 2500

/-- A freshly mounted page. -/
def initPage : PageState :=
  { status := Status.connecting, finalTranscript := [], silenceDeadline := none
    sentTranscripts := [], recognitionActive := true, interviewId := none }

/-- The `ws` binding read by the silence-timer callback.  The callback
is created inside `recognition.onresult`, which `initSpeechRecognition`
installs from the mount effect — at a point where the `ws` state of
that render is still `null` (`connectWebSocket` runs afterwards, and
`setWs` only rebinds `ws` in later renders; it can never change the
binding this closure captured).  The captured value is therefore `null`
for the whole session: a stale closure. -/
def capturedWs : Option Unit := none

/-- The silence `setTimeout` callback firing at its deadline: when the
trimmed buffer is non-empty and the captured `ws` is non-null, send one
`response_complete{transcript: finalTranscript.trim()}` and clear the
buffer; otherwise do nothing.  Either way the timer is spent.  Because
`capturedWs` is permanently `none`, the send branch is dead code. -/
def fireSilence (st : PageState) : PageState :=
  match st.silenceDeadline with
  | none => st
  | some d =>
    if trimChars st.finalTranscript ≠ [] ∧ capturedWs.isSome = true then
      { st with silenceDeadline := none
                sentTranscripts := st.sentTranscripts ++ [(d, trimChars st.finalTranscript)]
                finalTranscript := [] }
    else { st with silenceDeadline := none }

/-- Fire the pending silence timer if its deadline has passed by time
`t` (the browser runs a due timer callback before delivering a later
event). -/
def maybeFire (t : Nat) (st : PageState) : PageState :=
  match st.silenceDeadline with
  | some d => if d ≤ t then fireSilence st else st
  | none => st

/-- The `recognition.onresult` handling of one final fragment at time
`t`: `finalTranscript += transcript + ' '`, clear any pending silence
timer and set a new one 2500 ms out. -/
def onFinalResult (t : Nat) (transcript : List Char) (st : PageState) : PageState :=
  { st with finalTranscript := st.finalTranscript ++ (transcript ++ [' '])
            silenceDeadline := some (t + silenceThresholdMs) }

/-- The `ended` branch of the page's `handleMessage`:
`setStatus('ended')`, `setInterviewId`, then `stopEverything()` — which
stops the recorder, the recognition and the camera but never touches
`silenceTimerRef`. -/
def handleEnded (id : Int) (st : PageState) : PageState :=
  { st with status := Status.ended, interviewId := some id
            recognitionActive := false }

/-- Timed events delivered to the page. -/
inductive PageEvent where
  | finalResult (t : Nat) (transcript : List Char)
  | endedMsg (t : Nat) (interviewId : Int)

/-- One page event (a due silence timer fires first). -/
def stepPage (st : PageState) : PageEvent → PageState
  | PageEvent.finalResult t transcript => onFinalResult t transcript (maybeFire t st)
  | PageEvent.endedMsg t id => handleEnded id (maybeFire t st)

/-- A timed trace of page events. -/
def runPage (st : PageState) (evts : List PageEvent) : PageState :=
  evts.foldl stepPage st

/-- The `text.toLowerCase().split(' ')` tokenisation of
`detectFillerWords`: split on single space characters (consecutive
spaces yield empty tokens, exactly as in JS). -/
def splitOnSpace : List Char → List (List Char)
  | [] => [[]]
  | c :: cs =>
    match splitOnSpace cs with
    | [] => [[c]]
    | w :: ws => if c = ' ' then [] :: (w :: ws) else (c :: w) :: ws

/-- The `word.replace(/[.,!?]/g, '')` punctuation strip. -/
def stripPunct (w : List Char) : List Char :=
  w.filter (fun c => c ∉ ['.', ',', '!', '?'])

/-- The fixed filler-word list of `detectFillerWords`, including the
two-word entry `"you know"`. -/
def fillerWords : List (List Char) :=
  ["um".toList, "uh".toList, "like".toList, "you know".toList,
   "basically".toList, "literally".toList]

/-- One entry of the page's timeline log (`logEvent`). -/
structure TimelineEvent where
  timestamp : ℚ
  eventType : List Char
  word : List Char
  severity : List Char
deriving DecidableEq

/-- Model of `detectFillerWords(text, timestamp)` against the page's timeline:
lowercase the fragment, split on spaces, and for every token whose
punctuation-stripped form is in `fillerWords` append one `filler_word`
event of severity `warning` carrying the token. -/
def detectFillerWords (text : List Char) (timestamp : ℚ)
    (timeline : List TimelineEvent) : List TimelineEvent :=
  (splitOnSpace (text.map Char.toLower)).foldl
    (fun tl word =>
      if stripPunct word ∈ fillerWords then
        tl ++ [{ timestamp := timestamp, eventType := "filler_word".toList
                 word := word, severity := "warning".toList }]
      else tl) timeline

end InterviewPage

namespace VoiceInterview

/-- Session status as in `useVoiceInterview`'s `VoiceInterviewState`. -/
inductive Status where
  | connecting
  | ready
  | active
  | ended
deriving DecidableEq

/-- Model of `VoiceInterviewState`, the `state` ref of `useVoiceInterview`. -/
structure VState where
  status : Status
  currentQuestion : List Char
  questionIndex : Int
  aiSpeaking : Bool
  interviewId : Option Int
deriving DecidableEq

/-- The initial state of the hook. -/
def initVState : VState :=
  { status := Status.connecting, currentQuestion := [], questionIndex := 0
    aiSpeaking := false, interviewId := none }

/-- An inbound transport message, by its `type` discriminator, carrying
the fields `handleMessage` reads. -/
inductive Msg where
  | ready
  | question (index : Int)
  | aiAudio (chunk : AudioUtils.Chunk)
  | aiTranscriptDelta (text : List Char)
  | aiDoneSpeaking
  | ended (interviewId : Int)
  | error (message : List Char)
  | unknown (ty : List Char)

/-- Model of `handleMessage` of `useVoiceInterview`: a plain `switch` on
`message.type` with no precondition on the current status.  `ai_audio`
only forwards the chunk to the audio player, `error` and unknown types
only log; the function is total (no branch can throw), which is the
"without crashing" part of the contract. -/
def handleMessage (s : VState) : Msg → VState
  | Msg.ready => { s with status := Status.ready }
  | Msg.question index =>
    { s with status := Status.active, currentQuestion := []
             questionIndex := index, aiSpeaking := true }
  | Msg.aiAudio _ => s
  | Msg.aiTranscriptDelta text =>
    { s with currentQuestion := s.currentQuestion ++ text }
  | Msg.aiDoneSpeaking => { s with aiSpeaking := false }
  | Msg.ended id => { s with status := Status.ended, interviewId := some id }
  | Msg.error _ => s
  | Msg.unknown _ => s

/-- A whole inbound message trace from the initial state. -/
def runMsgs (ms : List Msg) : VState := ms.foldl handleMessage initVState

/-- While the hook is still `connecting`, `aiSpeaking` is false (the
only message that sets it, `question`, also leaves `connecting`). -/
def ConnInv (s : VState) : Prop := s.status = Status.connecting → s.aiSpeaking = false

/-- The readiness of the socket variable read by `sendTranscript`. -/
inductive WsReadyState where
  | connecting
  | opened
  | closing
  | closed
deriving DecidableEq

/-- Observable effects of `sendTranscript`. -/
inductive WireEffect where
  | logSending (preview : List Char)
  | sendResponseComplete (transcript : List Char)
deriving DecidableEq

/-- Model of `sendTranscript` of `useVoiceInterview`: only when the socket is
non-null and `readyState === WebSocket.OPEN` does it log and send the
`response_complete`; in every other case it does nothing at all —
there is no else branch. -/
def sendTranscript (ws : Option WsReadyState) (transcript : List Char) :
    List WireEffect :=
  match ws with
  | some rs =>
    if rs = WsReadyState.opened then
      [WireEffect.logSending (transcript.take 50),
       WireEffect.sendResponseComplete transcript]
    else []
  | none => []

end VoiceInterview

namespace WebkitSpeech

/-- State of the webkit `useSpeechRecognition` hook: `enabledRef` and
`restartAttempts` are the refs, `pendingRestart` the (untracked, never
cancelled) restart `setTimeout` as its absolute fire time,
`recognitionRunning` whether a browser capture session is active,
`starts` the times at which `recognition.start()` began a new capture
session, and `unmounted` whether the effect cleanup has nulled
`recognition.onend`. -/
structure HookState where
  enabledRef : Bool
  restartAttempts : Nat
  isListening : Bool
  error : Option (List Char)
  recognitionRunning : Bool
  pendingRestart : Option Nat
  starts : List Nat
  unmounted : Bool
deriving DecidableEq

/-- Constant `MAX_RESTARTS` of the webkit hook. -/
def MAX_RESTARTS : Nat := 3

/-- The hook right after mount with `enabled = true` (initial
`recognition.start()` succeeded). -/
def initHook : HookState :=
  { enabledRef := true, restartAttempts := 0, isListening := true
    error := none, recognitionRunning := true, pendingRestart := none
    starts := [], unmounted := false }

/-- Model of `recognition.onend` at time `t`: stop listening; bail out when
disabled; at the cap, surface the terminal error; otherwise bump the
attempt counter and schedule `recognition.start()` 1500 ms out.  After
unmount the handler has been nulled and nothing runs. -/
def onEndStep (t : Nat) (s : HookState) : HookState :=
  if s.unmounted then { s with recognitionRunning := false }
  else
    let s1 := { s with isListening := false, recognitionRunning := false }
    if s1.enabledRef = false then s1
    else if MAX_RESTARTS ≤ s1.restartAttempts then
      { s1 with error := some "Speech recognition failed".toList }
    else
      { s1 with restartAttempts := s1.restartAttempts + 1
                pendingRestart := some (t + 1500) }

/-- The restart `setTimeout` callback firing at time `t`: it checks
nothing — not `enabledRef`, not unmount — and calls
`recognition.start()` inside a try/catch (a start on an already
running recognizer throws and is swallowed; otherwise a new capture
session begins). -/
def timerFireStep (t : Nat) (s : HookState) : HookState :=
  match s.pendingRestart with
  | some d =>
    if d ≤ t then
      let s1 := { s with pendingRestart := none }
      if s1.recognitionRunning then s1
      else { s1 with recognitionRunning := true, starts := s1.starts ++ [t] }
    else s
  | none => s

/-- Handling of `enabled` transitioning to false: the sync effect sets
`enabledRef := false` and the control effect calls
`recognition.stop()`.  Nothing clears the pending restart timeout. -/
def disableStep (s : HookState) : HookState :=
  { s with enabledRef := false, recognitionRunning := false }

/-- The mount effect's cleanup (unmount): null `recognition.onend` and
stop the recognizer.  The pending restart timeout is again left
armed. -/
def unmountStep (s : HookState) : HookState :=
  { s with unmounted := true, recognitionRunning := false }

/-- Events driving the webkit hook. -/
inductive HookEv where
  | recEnd (t : Nat)
  | timerFire (t : Nat)
  | disable
  | unmount

/-- One hook event. -/
def stepHook (s : HookState) : HookEv → HookState
  | HookEv.recEnd t => onEndStep t s
  | HookEv.timerFire t => timerFireStep t s
  | HookEv.disable => disableStep s
  | HookEv.unmount => unmountStep s

/-- A trace of hook events from mount. -/
def runHook (evts : List HookEv) : HookState := evts.foldl stepHook initHook

end WebkitSpeech

namespace AzureSpeech

/-- Restart reasons of the Azure-SDK `useSpeechRecognition` hook. -/
inductive RestartReason where
  | network
  | service
  | normal

/-- State of the Azure hook: the refs `enabledRef`,
`manuallyStoppedRef`, `restartAttemptRef` and `restartTimeoutRef`
(whether a restart is pending), the `error` state, and `lastDelay`, the
delay of the most recently scheduled restart. -/
structure EngineState where
  enabledRef : Bool
  manuallyStopped : Bool
  restartAttempt : Nat
  restartPending : Bool
  error : Option (List Char)
  lastDelay : Option Nat
deriving DecidableEq

/-- The Azure hook right after being enabled. -/
def initEngine : EngineState :=
  { enabledRef := true, manuallyStopped := false, restartAttempt := 0
    restartPending := false, error := none, lastDelay := none }

/-- Model of `scheduleRestart` of the Azure hook: bail out when disabled,
manually stopped, or a restart is already pending; otherwise bump the
attempt counter and arm a timeout of 1000 ms, or — for network/service
failures — `min(30000, 1000 * 2 ** min(attempt, 5))` ms.  There is no
cap on the number of attempts. -/
def scheduleRestart (s : EngineState) (reason : RestartReason) : EngineState :=
  if s.enabledRef = false ∨ s.manuallyStopped = true then s
  else if s.restartPending then s
  else
    let attempt := s.restartAttempt + 1
    let delayMs : Nat :=
      match reason with
      | RestartReason.network => min 30000 (1000 * 2 ^ (min attempt 5))
      | RestartReason.service => min 30000 (1000 * 2 ^ (min attempt 5))
      | RestartReason.normal => 1000
    { s with restartAttempt := attempt, restartPending := true
             lastDelay := some delayMs }

/-- The first failed `startRecognition` (its catch block): record the
provider's error message and `scheduleRestart('service')`. -/
def failedStart (s : EngineState) (msg : List Char) : EngineState :=
  scheduleRestart { s with error := some msg } RestartReason.service

/-- One consecutive service-failure cycle: the pending restart timeout
fires (`restartTimeoutRef.current = null`), `startRecognition` runs and
fails again, so its catch sets the error and schedules the next
restart. -/
def serviceFailureCycle (s : EngineState) (msg : List Char) : EngineState :=
  if s.restartPending then
    scheduleRestart { s with restartPending := false, error := some msg }
      RestartReason.service
  else s

/-- A concrete provider error message used for the failing run. -/
def serviceErrorDetails : List Char :=
  "Unable to contact server. StatusCode: 1006".toList

end AzureSpeech

namespace AudioUtils

theorem playNext_inv (s : AudioPlayerState)
    (hq : s.started ++ s.audioQueue = s.enqueued) (ha : s.active = []) :
    PlayerInv (playNext s) := by
  unfold playNext
  cases hqq : s.audioQueue with
  | nil =>
    refine ⟨?_, ?_, ?_⟩ <;> simp_all
  | cons b rest =>
    refine ⟨?_, ?_, ?_⟩
    · simp only
      rw [← hq, hqq]
      simp
    · simp [ha]
    · simp [ha]

theorem stepPlayer_inv (s : AudioPlayerState) (e : PlayerEvent)
    (h : PlayerInv s) : PlayerInv (stepPlayer s e) := by
  obtain ⟨hq, hlen, hiff⟩ := h
  cases e with
  | play c =>
    show PlayerInv (playChunk s c)
    unfold playChunk
    by_cases hc : s.hasContext
    · simp only [hc, if_true]
      cases hdec : decodeChunk c with
      | error e => exact ⟨hq, hlen, hiff⟩
      | ok audioBuffer =>
        simp only
        by_cases hp : s.isPlaying
        · simp only [hp, if_true]
          refine ⟨?_, hlen, ?_⟩ <;> simp_all
          rw [← List.append_assoc, hq]
        · simp only [hp, if_false]
          apply playNext_inv
          · simp only
            rw [← List.append_assoc, hq]
          · simp only
            by_contra hne
            exact hp (hiff.mpr hne)
    · simp only [hc, if_false]
      exact ⟨hq, hlen, hiff⟩
  | ended =>
    show PlayerInv (onEnded s)
    unfold onEnded
    cases hac : s.active with
    | nil => exact ⟨hq, hlen, hiff⟩
    | cons b rest =>
      have hrest : rest = [] := by
        rw [hac] at hlen
        simpa using hlen
      subst hrest
      exact playNext_inv _ hq rfl

theorem runPlayer_inv (evts : List PlayerEvent) (s : AudioPlayerState)
    (h : PlayerInv s) : PlayerInv (runPlayer s evts) := by
  induction evts generalizing s with
  | nil => exact h
  | cons e rest ih => exact ih (stepPlayer s e) (stepPlayer_inv s e h)

/-- C1.  For every sequence of `playChunk` calls (decodable or not)
interleaved with node completions, the buffers started for playback
followed by the still-queued buffers are exactly the successfully
decoded buffers in arrival order (so playback is strictly in arrival
order and no queued buffer is ever dropped), at most one source node is
rendering at any moment (no two buffers overlap in playback time), and
`isPlaying` is set exactly while a node renders. -/
theorem c1_playback_order (evts : List PlayerEvent) :
    (runPlayer initPlayer evts).started ++ (runPlayer initPlayer evts).audioQueue
        = (runPlayer initPlayer evts).enqueued
    ∧ (runPlayer initPlayer evts).active.length ≤ 1
    ∧ ((runPlayer initPlayer evts).isPlaying = true
        ↔ (runPlayer initPlayer evts).active ≠ []) := by
  have h := runPlayer_inv evts initPlayer ⟨rfl, by simp [initPlayer], by simp [initPlayer]⟩
  exact h

theorem playNext_enqueued (s : AudioPlayerState) :
    (playNext s).enqueued = s.enqueued := by
  unfold playNext
  cases s.audioQueue <;> rfl

/-- C8.  For every chunk handed to `playChunk` on a live context: if it
decodes (valid base64 with an even byte count), the resulting buffer is
mono at 24000 Hz and every 16-bit signed sample is converted to the
exact float `pcm16[i] / 32768.0`, and that buffer is appended to the
queue; if decoding fails, the chunk alone is dropped — the player state
is unchanged and every subsequent `playChunk` behaves exactly as if the
failing chunk had never arrived (the error is caught, nothing
propagates to the caller). -/
theorem c8_decode_contract (s : AudioPlayerState) (c : Chunk)
    (hctx : s.hasContext = true) :
    (∀ bytes : List Nat, c = Chunk.valid bytes → bytes.length % 2 = 0 →
      decodeChunk c = Except.ok
          { numberOfChannels := 1, sampleRate := 24000
            samples := (int16OfBytes bytes).map (fun v => (v : ℚ) / 32768) }
      ∧ (playChunk s c).enqueued = s.enqueued ++
          [{ numberOfChannels := 1, sampleRate := 24000
             samples := (int16OfBytes bytes).map (fun v => (v : ℚ) / 32768) }])
    ∧ (∀ e, decodeChunk c = Except.error e →
        playChunk s c = s ∧ ∀ c2, playChunk (playChunk s c) c2 = playChunk s c2) := by
  constructor
  · intro bytes hc hlen
    subst hc
    have hdec : decodeChunk (Chunk.valid bytes) = Except.ok
        { numberOfChannels := 1, sampleRate := 24000
          samples := (int16OfBytes bytes).map (fun v => (v : ℚ) / 32768) } := by
      unfold decodeChunk pcm16ToAudioBuffer
      simp [hlen]
    refine ⟨hdec, ?_⟩
    unfold playChunk
    rw [hctx, hdec]
    simp only [if_true]
    by_cases hp : s.isPlaying <;> simp [hp, playNext_enqueued]
  · intro e he
    have hunch : playChunk s c = s := by
      unfold playChunk
      rw [hctx, he]
      simp
    exact ⟨hunch, fun c2 => by rw [hunch]⟩

/-- Witness for C8 at the concrete chunk `[1, 0]` (the single sample
`1`, converted to `1 / 32768`). -/
theorem c8_witness :
    initPlayer.hasContext = true
    ∧ decodeChunk (Chunk.valid [1, 0]) = Except.ok
        { numberOfChannels := 1, sampleRate := 24000
          samples := (int16OfBytes [1, 0]).map (fun v => (v : ℚ) / 32768) }
    ∧ (playChunk initPlayer (Chunk.valid [1, 0])).enqueued = initPlayer.enqueued ++
        [{ numberOfChannels := 1, sampleRate := 24000
           samples := (int16OfBytes [1, 0]).map (fun v => (v : ℚ) / 32768) }] :=
  ⟨rfl, (c8_decode_contract initPlayer (Chunk.valid [1, 0]) rfl).1 [1, 0] rfl rfl⟩

/-- Counterexample for C9 as stated: after one decodable chunk has
started rendering, `stopAll` leaves the active source node rendering —
it does not halt the active buffer (no `source.stop()` in the source). -/
theorem c9_counterexample :
    (stopAll (runPlayer initPlayer [PlayerEvent.play (Chunk.valid [0, 0])])).active
      ≠ [] := by decide

/-- C9 (amended).  On any player whose context is live: `stopAll`
discards the queue and clears `isPlaying` but leaves the already
rendering buffer playing to completion; `stopAll` is idempotent;
`close` (which runs `stopAll`) releases the context, which halts all
rendering, and a second `close` is a no-op; after `close` nothing
throws and no audio can ever play again (`playChunk` returns
immediately and no node renders). -/
theorem c9_stop_close_idempotent (s : AudioPlayerState)
    (hctx : s.hasContext = true) :
    (stopAll s).active = s.active
    ∧ stopAll (stopAll s) = stopAll s
    ∧ close (close (stopAll s)) = close (stopAll s)
    ∧ (close (stopAll s)).active = []
    ∧ (close (stopAll s)).audioQueue = []
    ∧ (close (stopAll s)).isPlaying = false
    ∧ (close (stopAll s)).hasContext = false
    ∧ (∀ c, playChunk (close (stopAll s)) c = close (stopAll s))
    ∧ onEnded (close (stopAll s)) = close (stopAll s) := by
  have hclose : close (stopAll s) =
      { s with audioQueue := [], isPlaying := false
               hasContext := false, active := [] } := by
    unfold close stopAll
    simp [hctx]
  refine ⟨rfl, rfl, ?_, ?_, ?_, ?_, ?_, ?_, ?_⟩
  · rw [hclose]
    unfold close stopAll
    simp
  · rw [hclose]
  · rw [hclose]
  · rw [hclose]
  · rw [hclose]
  · intro c
    rw [hclose]
    unfold playChunk
    simp
  · rw [hclose]
    unfold onEnded
    simp

/-- Witness for C9 (amended) on a freshly constructed player. -/
theorem c9_witness :
    initPlayer.hasContext = true
    ∧ (stopAll initPlayer).active = initPlayer.active
    ∧ close (close (stopAll initPlayer)) = close (stopAll initPlayer)
    ∧ (close (stopAll initPlayer)).active = [] := by
  have h := c9_stop_close_idempotent initPlayer rfl
  exact ⟨rfl, h.1, h.2.2.1, h.2.2.2.1⟩

end AudioUtils

namespace InterviewPage

theorem runPage_cons (st : PageState) (e : PageEvent) (es : List PageEvent) :
    runPage st (e :: es) = runPage (stepPage st e) es := rfl


/-- The silence-timer callback can never take its send branch: the
`ws` it reads is the mount-time captured `null`.  Firing a timer
neither sends anything nor clears the buffer. -/
theorem fireSilence_no_send (st : PageState) :
    (fireSilence st).sentTranscripts = st.sentTranscripts
    ∧ (fireSilence st).finalTranscript = st.finalTranscript := by
  cases hd : st.silenceDeadline with
  | none =>
    simp [fireSilence, hd]
  | some d =>
    simp only [fireSilence, hd]
    rw [if_neg (fun hcontra => absurd hcontra.2 (by decide))]
    simp

theorem maybeFire_no_send (t : Nat) (st : PageState) :
    (maybeFire t st).sentTranscripts = st.sentTranscripts
    ∧ (maybeFire t st).finalTranscript = st.finalTranscript := by
  cases hd : st.silenceDeadline with
  | none =>
    simp [maybeFire, hd]
  | some d =>
    by_cases hle : d ≤ t
    · simp only [maybeFire, hd]
      rw [if_pos hle]
      exact fireSilence_no_send st
    · simp [maybeFire, hd, hle]

theorem runPage_finals_never_send (frags : List (Nat × List Char)) :
    ∀ st : PageState,
    (runPage st (frags.map fun f => PageEvent.finalResult f.1 f.2)).sentTranscripts
        = st.sentTranscripts
    ∧ (runPage st (frags.map fun f => PageEvent.finalResult f.1 f.2)).finalTranscript
        = st.finalTranscript ++ (frags.map fun f => f.2 ++ [' ']).flatten := by
  induction frags with
  | nil => intro st; simp [runPage]
  | cons f rest ih =>
    obtain ⟨t, s⟩ := f
    intro st
    rw [List.map_cons, runPage_cons]
    obtain ⟨ihs, ihf⟩ := ih (stepPage st (PageEvent.finalResult t s))
    have hms := (maybeFire_no_send t st).1
    have hmf := (maybeFire_no_send t st).2
    refine ⟨?_, ?_⟩
    · rw [ihs]
      show (maybeFire t st).sentTranscripts = st.sentTranscripts
      exact hms
    · rw [ihf]
      show (maybeFire t st).finalTranscript ++ (s ++ [' '])
            ++ (rest.map fun f => f.2 ++ [' ']).flatten = _
      rw [hmf]
      simp [List.append_assoc]

/-- C2, the code at the failing input class (every sequence of final
fragments, including the spec's own scenario of one fragment followed
by 2.5 s of silence): the silence-timer guard
`finalTranscript.trim() && ws` reads the `ws` binding captured at
mount, which is permanently `null`, so when a timer elapses NO
`response_complete` is ever sent — zero turns for any trace, not one
per gap-separated group — and the buffer is never cleared: it keeps
accumulating every fragment of the session. -/
theorem c2_never_sends (frags : List (Nat × List Char)) :
    (fireSilence (runPage initPage (frags.map fun f =>
        PageEvent.finalResult f.1 f.2))).sentTranscripts = []
    ∧ (fireSilence (runPage initPage (frags.map fun f =>
        PageEvent.finalResult f.1 f.2))).finalTranscript
        = (frags.map fun f => f.2 ++ [' ']).flatten := by
  obtain ⟨hs, hf⟩ := runPage_finals_never_send frags initPage
  obtain ⟨hs2, hf2⟩ := fireSilence_no_send
    (runPage initPage (frags.map fun f => PageEvent.finalResult f.1 f.2))
  rw [hs2, hf2, hs, hf]
  exact ⟨rfl, rfl⟩

/-- C3, the code at the spec's own scenario: a final fragment `"hello"`
arrives at t = 0 (arming the silence timer for t = 2500) and
`ended{interview_id: 42}` arrives at t = 1000.  The `ended` handler
(`stopEverything`) never clears `silenceTimerRef`, so after the status
is `Ended` the timer is still armed for t = 2500 — it is not
cancelled — and when it fires the buffered transcript is still there,
not discarded: the buffer survives intact.  (Nothing is transmitted,
but only because the separate stale-closure bug pins the callback's
`ws` to `null`; cancellation never happens.) -/
theorem c3_timer_not_cancelled :
    (runPage initPage
        [PageEvent.finalResult 0 "hello".toList,
         PageEvent.endedMsg 1000 42]).status = Status.ended
    ∧ (runPage initPage
        [PageEvent.finalResult 0 "hello".toList,
         PageEvent.endedMsg 1000 42]).silenceDeadline = some 2500
    ∧ (runPage initPage
        [PageEvent.finalResult 0 "hello".toList,
         PageEvent.endedMsg 1000 42]).interviewId = some 42
    ∧ (fireSilence (runPage initPage
        [PageEvent.finalResult 0 "hello".toList,
         PageEvent.endedMsg 1000 42])).finalTranscript = "hello ".toList
    ∧ (fireSilence (runPage initPage
        [PageEvent.finalResult 0 "hello".toList,
         PageEvent.endedMsg 1000 42])).sentTranscripts = []
    ∧ (fireSilence (runPage initPage
        [PageEvent.finalResult 0 "hello".toList,
         PageEvent.endedMsg 1000 42])).status = Status.ended := by
  refine ⟨rfl, rfl, rfl, ?_, ?_, rfl⟩ <;> decide

theorem foldl_ite_append {α β : Type} (p : α → Prop) [DecidablePred p] (f : α → β) :
    ∀ (ws : List α) (acc : List β),
      ws.foldl (fun tl w => if p w then tl ++ [f w] else tl) acc
        = acc ++ (ws.filter (fun w => p w)).map f := by
  intro ws
  induction ws with
  | nil => intro acc; simp
  | cons w ws ih =>
    intro acc
    by_cases hp : p w <;> simp [List.filter_cons, hp, ih]

theorem splitOnSpace_ne_nil (l : List Char) : splitOnSpace l ≠ [] := by
  cases l with
  | nil => simp [splitOnSpace]
  | cons c cs =>
    unfold splitOnSpace
    cases hsp : splitOnSpace cs with
    | nil => simp
    | cons w ws => by_cases hc : c = ' ' <;> simp [hc]

theorem mem_splitOnSpace_no_space (l : List Char) :
    ∀ w ∈ splitOnSpace l, ' ' ∉ w := by
  induction l with
  | nil =>
    intro w hw
    simp only [splitOnSpace, List.mem_singleton] at hw
    simp [hw]
  | cons c cs ih =>
    intro w hw
    rcases hsp : splitOnSpace cs with _ | ⟨w0, ws⟩
    · exact absurd hsp (splitOnSpace_ne_nil cs)
    · rw [splitOnSpace, hsp] at hw
      have hw2 : w ∈ (if c = ' ' then [] :: (w0 :: ws) else (c :: w0) :: ws) := hw
      by_cases hc : c = ' '
      · rw [if_pos hc] at hw2
        rcases List.mem_cons.mp hw2 with h1 | h2
        · simp [h1]
        · exact ih w (hsp ▸ h2)
      · rw [if_neg hc] at hw2
        rcases List.mem_cons.mp hw2 with h1 | h2
        · subst h1
          intro hmem
          rcases List.mem_cons.mp hmem with h3 | h4
          · exact hc h3.symm
          · exact ih w0 (hsp ▸ List.mem_cons_self _ _) h4
        · exact ih w (hsp ▸ List.mem_cons_of_mem _ h2)

theorem stripPunct_no_space (w : List Char) (hw : ' ' ∉ w) :
    stripPunct w ≠ "you know".toList := by
  intro heq
  apply hw
  have hmem : ' ' ∈ stripPunct w := by
    rw [heq]
    decide
  exact List.mem_of_mem_filter hmem

/-- C10.  `detectFillerWords` appends exactly one `filler_word` event
of severity `warning` per token (of the space-split, lowercased
fragment) whose punctuation-stripped form is one of the five
single-word fillers; the two-word entry `"you know"` can never equal a
space-split token, so it never produces an event. -/
theorem c10_filler_words (text : List Char) (timestamp : ℚ)
    (timeline : List TimelineEvent) :
    detectFillerWords text timestamp timeline
      = timeline ++ ((splitOnSpace (text.map Char.toLower)).filter
          (fun w => stripPunct w ∈ ["um".toList, "uh".toList, "like".toList,
            "basically".toList, "literally".toList])).map
          (fun w => { timestamp := timestamp, eventType := "filler_word".toList
                      word := w, severity := "warning".toList })
    ∧ ∀ w ∈ splitOnSpace (text.map Char.toLower),
        stripPunct w ≠ "you know".toList := by
  have hns : ∀ w ∈ splitOnSpace (text.map Char.toLower),
      stripPunct w ≠ "you know".toList := fun w hw =>
    stripPunct_no_space w (mem_splitOnSpace_no_space _ w hw)
  constructor
  · unfold detectFillerWords
    rw [foldl_ite_append (fun w => stripPunct w ∈ fillerWords)]
    congr 1
    congr 1
    apply List.filter_congr
    intro w hw
    have hne := hns w hw
    simp only [decide_eq_decide]
    unfold fillerWords
    simp only [List.mem_cons, List.mem_singleton]
    constructor
    · rintro (h | h | h | h | h | h)
      · exact Or.inl h
      · exact Or.inr (Or.inl h)
      · exact Or.inr (Or.inr (Or.inl h))
      · exact absurd h hne
      · exact Or.inr (Or.inr (Or.inr (Or.inl h)))
      · exact Or.inr (Or.inr (Or.inr (Or.inr h)))
    · rintro (h | h | h | h | h)
      · exact Or.inl h
      · exact Or.inr (Or.inl h)
      · exact Or.inr (Or.inr (Or.inl h))
      · exact Or.inr (Or.inr (Or.inr (Or.inr (Or.inl h))))
      · exact Or.inr (Or.inr (Or.inr (Or.inr (Or.inr h))))
  · exact hns

end InterviewPage

namespace VoiceInterview

theorem handleMessage_connInv (s : VState) (m : Msg) (h : ConnInv s) :
    ConnInv (handleMessage s m) := by
  cases m with
  | ready => intro hc; cases hc
  | question index => intro hc; cases hc
  | aiAudio c => exact h
  | aiTranscriptDelta text => intro hc; exact h hc
  | aiDoneSpeaking => intro hc; rfl
  | ended id => intro hc; cases hc
  | error msg => exact h
  | unknown ty => exact h

theorem runMsgs_connInv (ms : List Msg) : ConnInv (runMsgs ms) := by
  have hgen : ∀ (l : List Msg) (s : VState), ConnInv s → ConnInv (l.foldl handleMessage s) := by
    intro l
    induction l with
    | nil => intro s h; exact h
    | cons m rest ih => intro s h; exact ih _ (handleMessage_connInv s m h)
  exact hgen ms initVState (fun _ => rfl)

/-- Counterexample for C4 as stated: in the `connecting` state a
`question` message is not ignored — it moves the status straight to
`active` (skipping `ready`); an `error` message does not move the state
to `ended` (it only logs, leaving the state untouched); and an
`ai_transcript_delta` changes the state (it appends to
`currentQuestion`). -/
theorem c4_counterexample :
    (handleMessage initVState (Msg.question 1)).status = Status.active
    ∧ handleMessage initVState (Msg.error "boom".toList) = initVState
    ∧ (handleMessage initVState (Msg.aiTranscriptDelta "Tell me".toList)).currentQuestion
        ≠ initVState.currentQuestion := by
  refine ⟨rfl, rfl, ?_⟩
  decide

/-- C4 (amended).  In any reachable `connecting` state, `handleMessage`
acts as follows: `ready` moves to `ready`; `ended` moves to `ended`
setting `interviewId`; `question` moves directly to `active` (clearing
the question text, setting the index, raising `aiSpeaking`);
`ai_transcript_delta` appends its text to `currentQuestion`; and
`ai_audio`, `ai_done_speaking`, `error` and unknown message types leave
the state value unchanged.  Every message is handled by a total
function — nothing crashes. -/
theorem c4_connecting_transitions (ms : List Msg)
    (h : (runMsgs ms).status = Status.connecting) :
    handleMessage (runMsgs ms) Msg.ready = { runMsgs ms with status := Status.ready }
    ∧ (∀ id : Int, handleMessage (runMsgs ms) (Msg.ended id)
        = { runMsgs ms with status := Status.ended, interviewId := some id })
    ∧ (∀ index : Int, handleMessage (runMsgs ms) (Msg.question index)
        = { runMsgs ms with status := Status.active, currentQuestion := []
                            questionIndex := index, aiSpeaking := true })
    ∧ (∀ text : List Char, handleMessage (runMsgs ms) (Msg.aiTranscriptDelta text)
        = { runMsgs ms with currentQuestion := (runMsgs ms).currentQuestion ++ text })
    ∧ (∀ c, handleMessage (runMsgs ms) (Msg.aiAudio c) = runMsgs ms)
    ∧ handleMessage (runMsgs ms) Msg.aiDoneSpeaking = runMsgs ms
    ∧ (∀ msg, handleMessage (runMsgs ms) (Msg.error msg) = runMsgs ms)
    ∧ (∀ ty, handleMessage (runMsgs ms) (Msg.unknown ty) = runMsgs ms) := by
  have hai : (runMsgs ms).aiSpeaking = false := runMsgs_connInv ms h
  refine ⟨rfl, fun id => rfl, fun index => rfl, fun text => rfl, fun c => rfl, ?_,
    fun msg => rfl, fun ty => rfl⟩
  show { runMsgs ms with aiSpeaking := false } = runMsgs ms
  rw [← hai]

/-- Witness for C4 (amended) at the empty trace. -/
theorem c4_witness :
    (runMsgs []).status = Status.connecting
    ∧ handleMessage (runMsgs []) Msg.ready = { runMsgs [] with status := Status.ready }
    ∧ handleMessage (runMsgs []) (Msg.ended 42)
        = { runMsgs [] with status := Status.ended, interviewId := some 42 }
    ∧ handleMessage (runMsgs []) Msg.aiDoneSpeaking = runMsgs [] := by
  have h := c4_connecting_transitions [] rfl
  exact ⟨rfl, h.1, h.2.1 42, h.2.2.2.2.2.1⟩

/-- Counterexample for C7 as stated: with a null socket, or a socket
that is no longer open, `sendTranscript` drops the turn with no
observable effect whatsoever — no send, no log. -/
theorem c7_counterexample :
    sendTranscript none "I led a team of five".toList = []
    ∧ sendTranscript (some WsReadyState.closed) "I led a team of five".toList = [] :=
  ⟨rfl, rfl⟩

/-- C7 (amended).  `sendTranscript` sends the `response_complete`
(after a visible log) exactly when the socket exists and is open; for a
null or non-open socket the turn is silently dropped: the effect list
is empty. -/
theorem c7_send_visibility (ws : Option WsReadyState) (transcript : List Char) :
    (ws = some WsReadyState.opened →
      sendTranscript ws transcript
        = [WireEffect.logSending (transcript.take 50),
           WireEffect.sendResponseComplete transcript])
    ∧ (ws ≠ some WsReadyState.opened → sendTranscript ws transcript = []) := by
  constructor
  · intro h
    subst h
    rfl
  · intro h
    match ws with
    | none => rfl
    | some rs =>
      have hrs : ¬rs = WsReadyState.opened := fun hh => h (by rw [hh])
      show (if rs = WsReadyState.opened then _ else []) = []
      rw [if_neg hrs]

/-- Witness for C7 (amended) on an open and on a null socket. -/
theorem c7_witness :
    sendTranscript (some WsReadyState.opened) "hi".toList
      = [WireEffect.logSending (("hi".toList).take 50),
         WireEffect.sendResponseComplete "hi".toList]
    ∧ sendTranscript none "hi".toList = [] :=
  ⟨(c7_send_visibility (some WsReadyState.opened) "hi".toList).1 rfl,
   (c7_send_visibility none "hi".toList).2 (by decide)⟩

end VoiceInterview

namespace WebkitSpeech

/-- C6 failing trace: the recognizer ends at t = 0 while enabled, so a
restart is scheduled for t = 1500; `enabled` goes false at t = 500
(`recognition.stop()`, `enabledRef := false`), but the already
scheduled timeout is not cancelled and its callback checks nothing, so
at t = 1500 `recognition.start()` begins a new capture session after
the disable. -/
theorem c6_restart_after_disable :
    (runHook [HookEv.recEnd 0, HookEv.disable, HookEv.timerFire 1500]).enabledRef = false
    ∧ (runHook [HookEv.recEnd 0, HookEv.disable, HookEv.timerFire 1500]).starts = [1500]
    ∧ (runHook [HookEv.recEnd 0, HookEv.disable, HookEv.timerFire 1500]).recognitionRunning = true
    ∧ (runHook [HookEv.recEnd 0, HookEv.disable]).pendingRestart = some 1500 := by
  refine ⟨rfl, ?_, rfl, rfl⟩
  decide

end WebkitSpeech

namespace AzureSpeech

theorem engine_iterate (n : Nat) :
    ((fun s => serviceFailureCycle s serviceErrorDetails)^[n]
        (failedStart initEngine serviceErrorDetails)).enabledRef = true
    ∧ ((fun s => serviceFailureCycle s serviceErrorDetails)^[n]
        (failedStart initEngine serviceErrorDetails)).manuallyStopped = false
    ∧ ((fun s => serviceFailureCycle s serviceErrorDetails)^[n]
        (failedStart initEngine serviceErrorDetails)).restartPending = true
    ∧ ((fun s => serviceFailureCycle s serviceErrorDetails)^[n]
        (failedStart initEngine serviceErrorDetails)).restartAttempt = n + 1
    ∧ ((fun s => serviceFailureCycle s serviceErrorDetails)^[n]
        (failedStart initEngine serviceErrorDetails)).error = some serviceErrorDetails
    ∧ ((fun s => serviceFailureCycle s serviceErrorDetails)^[n]
        (failedStart initEngine serviceErrorDetails)).lastDelay
        = some (min 30000 (1000 * 2 ^ (min (n + 1) 5))) := by
  induction n with
  | zero =>
    refine ⟨rfl, rfl, rfl, rfl, rfl, rfl⟩
  | succ k ih =>
    obtain ⟨h1, h2, h3, h4, h5, h6⟩ := ih
    rw [Function.iterate_succ_apply']
    set sk := (fun s => serviceFailureCycle s serviceErrorDetails)^[k]
        (failedStart initEngine serviceErrorDetails) with hsk
    show (serviceFailureCycle sk serviceErrorDetails).enabledRef = true ∧ _
    unfold serviceFailureCycle
    rw [if_pos (by rw [h3])]
    unfold scheduleRestart
    rw [if_neg (by simp [h1, h2]), if_neg (by simp)]
    refine ⟨h1, h2, rfl, by simp [h4], rfl, by simp [h4]⟩

/-- C5, the code at the failing input: starting from an enabled Azure
capture engine whose first start attempt failed with a service error,
after `n` further consecutive service failures — for every `n` — the
engine still has a restart scheduled (with the bounded exponential
delay `min(30000, 1000·2^min(n+1,5))` ms), the attempt counter is
`n + 1` with no cap applied, and the error is the provider's message,
never the terminal "speech recognition failed": the engine retries
forever. -/
theorem c5_unbounded_retries (n : Nat) :
    ((fun s => serviceFailureCycle s serviceErrorDetails)^[n]
        (failedStart initEngine serviceErrorDetails)).restartPending = true
    ∧ ((fun s => serviceFailureCycle s serviceErrorDetails)^[n]
        (failedStart initEngine serviceErrorDetails)).restartAttempt = n + 1
    ∧ ((fun s => serviceFailureCycle s serviceErrorDetails)^[n]
        (failedStart initEngine serviceErrorDetails)).error
        ≠ some "speech recognition failed".toList
    ∧ ((fun s => serviceFailureCycle s serviceErrorDetails)^[n]
        (failedStart initEngine serviceErrorDetails)).lastDelay
        = some (min 30000 (1000 * 2 ^ (min (n + 1) 5))) := by
  obtain ⟨_, _, h3, h4, h5, h6⟩ := engine_iterate n
  refine ⟨h3, h4, ?_, h6⟩
  rw [h5]
  intro hcontra
  have : serviceErrorDetails = "speech recognition failed".toList :=
    Option.some.inj hcontra
  exact absurd this (by decide)

end AzureSpeech
